import Mathlib

/-!
Formal model of the process-supervision core of the repository:
`backend/api/bot_manager.py` (BotRunner, Registry, log relay) and
`backend/api/pidguard.py` (process identity store).

The Python code is shallowly embedded as pure Lean functions over explicit
state.  OS-level effects are made explicit:

* the set of live worker pids is a `Finset Nat` carried in a `World`;
* the pidfile directory is an association list from file names (the part
  after the fixed temp-directory prefix) to the parsed content of the file
  (`some pid` for a well-formed JSON record, `none` for an unreadable file);
* the point at which a joined child process actually exits during the
  escalating stop sequence is an oracle parameter `ExitStep`
  (soft-signal / SIGTERM / SIGKILL / never), and the outcome of a
  psutil terminate-then-kill attempt on a live process is an oracle
  parameter `LiveKill`;
* every `os.kill` / `psutil.Process.terminate` / `psutil.Process.kill`
  call is recorded in a trace of `SigCall`s, so "performs no signal
  calls" is expressible.

Timestamps (`time.time()`) are modelled as rationals.
-/

namespace HLMaker

/-! ### Log buffer (bot_manager.py: `deque(maxlen=2000)` and `read_logs`) -/

/-- Capacity of the per-runner log buffer: `deque(maxlen=2000)`. -/
def LOG_CAP : Nat := 2000

/-- One `deque.append` on a deque with `maxlen = cap`: the line is added at
the right and, if the capacity is exceeded, the oldest (leftmost) entries
are discarded.  The buffer list is kept oldest-first. -/
def dequeAppend (cap : Nat) (buf : List String) (line : String) : List String :=
  let l := buf ++ [line]
  if cap < l.length then l.drop (l.length - cap) else l

/-- `BotRunner.read_logs(max_lines)`: pops `min(max_lines, len(buf))`
entries from the left of the buffer and returns them (first component),
together with the remaining buffer (second component).  `max_lines` is a
Python `int`, hence modelled as `Int`; a negative value makes the `range`
empty, so nothing is popped. -/
def read_logs (buf : List String) (max_lines : Int) : List String × List String :=
  let k : Nat := (min max_lines (buf.length : Int)).toNat
  (buf.take k, buf.drop k)

/-! ### Pidfile paths (pidguard.py: `pidfile_path`) -/

/-- Characters kept by the sanitizer in `pidfile_path`:
`ch.isalnum() or ch in ("-","_",":")` (ASCII alphanumerics modelled by
`Char.isAlphanum`). -/
def isSafeChar (c : Char) : Bool :=
  c.isAlphanum || c == '-' || c == '_' || c == ':'

/-- The sanitizer of `pidfile_path`: keep only safe characters. -/
def sanitize (key : List Char) : List Char := key.filter isSafeChar

/-- Fixed temp directory returned by `tempfile.gettempdir()` (a constant
for a given host). -/
def TMPDIR : List Char := String.toList "/tmp/"

/-- Base name of the pidfile for a key: `hlmaker-{safe}.pid`. -/
def pidfile_name (key : List Char) : List Char :=
  String.toList "hlmaker-" ++ sanitize key ++ String.toList ".pid"

/-- `pidguard.pidfile_path(key)`: `os.path.join(tempfile.gettempdir(),
f"hlmaker-{safe}.pid")`. -/
def pidfile_path (key : List Char) : List Char := TMPDIR ++ pidfile_name key

/-! ### The pidfile directory (the temp directory as seen by pidguard)

All pidfiles live in the one temp directory, so the directory is an
association list from base names to file contents.  A well-formed pidfile
parses to its `pid` field (`some pid`); an unreadable or malformed file is
`none` (reading it raises, which the Python code catches). -/

abbrev FSName := List Char

abbrev FileStore := List (FSName × Option Nat)

/-- Read the content of the file with the given base name (`none` when no
such file exists). -/
def fsLookup : FileStore → FSName → Option (Option Nat)
  | [], _ => none
  | e :: rest, name => if e.1 = name then some e.2 else fsLookup rest name

/-- `os.remove` of the file with the given base name (no error when
absent). -/
def fsRemove : FileStore → FSName → FileStore
  | [], _ => []
  | e :: rest, name => if e.1 = name then rest else e :: fsRemove rest name

/-- `pidguard.read_pid(key)`: open the pidfile, parse the JSON, return its
`pid`; any failure (missing file, malformed content) yields `None`. -/
def read_pid (fs : FileStore) (key : List Char) : Option Nat :=
  (fsLookup fs (pidfile_name key)).bind id

/-- `pidguard.write_pidfile(key, pid)`: overwrite the pidfile for the key
with a record whose `pid` field is `pid`. -/
def write_pidfile (fs : FileStore) (key : List Char) (pid : Nat) : FileStore :=
  (pidfile_name key, some pid) :: fsRemove fs (pidfile_name key)

/-- `pidguard.remove_pidfile(key)`: delete the pidfile; absence is not an
error. -/
def remove_pidfile (fs : FileStore) (key : List Char) : FileStore :=
  fsRemove fs (pidfile_name key)

/-- The scan filter of `cleanup_dead` and `kill_all`:
`name.startswith("hlmaker-") and name.endswith(".pid")`. -/
def isPidfileName (name : FSName) : Bool :=
  (String.toList "hlmaker-").isPrefixOf name
    && (String.toList ".pid").isSuffixOf name

/-- The key recovered from a pidfile name in `kill_all`:
`name[len("hlmaker-"):-4]`. -/
def stripName (name : FSName) : FSName :=
  (name.drop 8).take (name.length - 12)

/-- The world as the supervisor's OS effects see it: the set of live
process ids and the pidfile directory. -/
structure World where
  alive : Finset Nat
  fs : FileStore
deriving DecidableEq

/-! ### `pidguard.cleanup_dead` -/

/-- Loop body of `cleanup_dead` over the `os.listdir` snapshot `names`.
For each name that looks like a pidfile: parse it and remove it when its
pid is not alive; any read/parse failure also removes the file.  Returns
the resulting directory and the list of names appended to `removed`, in
scan order. -/
def cleanup_dead_go (aliveS : Finset Nat) :
    List FSName → FileStore → FileStore × List FSName
  | [], fs => (fs, [])
  | name :: rest, fs =>
    if isPidfileName name then
      match fsLookup fs name with
      | some (some pid) =>
        if pid ∈ aliveS then cleanup_dead_go aliveS rest fs
        else
          let r := cleanup_dead_go aliveS rest (fsRemove fs name)
          (r.1, name :: r.2)
      | some none =>
          let r := cleanup_dead_go aliveS rest (fsRemove fs name)
          (r.1, name :: r.2)
      | none =>
          let r := cleanup_dead_go aliveS rest fs
          (r.1, name :: r.2)
    else cleanup_dead_go aliveS rest fs

/-- `pidguard.cleanup_dead()`: scan the temp directory once and drop every
pidfile whose recorded pid is not a live process (or which cannot be
read), returning the list of removed file names. -/
def cleanup_dead (w : World) : World × List FSName :=
  let r := cleanup_dead_go w.alive (w.fs.map Prod.fst) w.fs
  ({ w with fs := r.1 }, r.2)

/-- An entry survives `cleanup_dead`: either it is not a pidfile at all,
or it parses to a pid that is a live process. -/
def keepEntry (aliveS : Finset Nat) (e : FSName × Option Nat) : Bool :=
  !isPidfileName e.1 ||
    (match e.2 with
     | some pid => decide (pid ∈ aliveS)
     | none => false)

/-! ### Termination primitives -/

/-- Trace of OS-level termination calls made by the supervisor:
`os.kill(pid, SIGTERM)`, `os.kill(pid, SIGKILL)`,
`psutil.Process(pid).terminate()`, `psutil.Process(pid).kill()`. -/
inductive SigCall
  | sigterm (pid : Nat)
  | sigkill (pid : Nat)
  | psTerm (pid : Nat)
  | psKill (pid : Nat)
deriving DecidableEq

/-- Oracle describing how a LIVE process reacts to the psutil
terminate-then-wait-then-kill-then-wait sequence of `_kill_pid`:
it exits within the wait after `terminate()`, or only within the wait
after `kill()`, or is still not gone after both. -/
inductive LiveKill
  | termExit
  | killExit
  | survives
deriving DecidableEq

/-- `pidguard._kill_pid(pid)`: constructing `psutil.Process` on a dead pid
raises `NoSuchProcess`, which counts as success with no calls made; a
live pid gets `terminate()` and, if it does not exit in time, `kill()`;
the function returns `False` only when the process is still around after
both. -/
def _kill_pid (w : World) (late : LiveKill) (pid : Nat) :
    World × List SigCall × Bool :=
  if pid ∈ w.alive then
    match late with
    | .termExit =>
        ({ w with alive := w.alive.erase pid }, [.psTerm pid], true)
    | .killExit =>
        ({ w with alive := w.alive.erase pid },
         [.psTerm pid, .psKill pid], true)
    | .survives => (w, [.psTerm pid, .psKill pid], false)
  else (w, [], true)

/-- `pidguard.kill_key(key)`: read the pidfile; a missing record or a
falsy pid (`if not pid`, which also catches `pid == 0`) is a trivial
success with no file change; otherwise `_kill_pid` and, only on success,
remove the pidfile. -/
def kill_key (w : World) (late : LiveKill) (key : List Char) :
    World × List SigCall × Bool :=
  match read_pid w.fs key with
  | none => (w, [], true)
  | some pid =>
    if pid = 0 then (w, [], true)
    else
      let r := _kill_pid w late pid
      if r.2.2 then
        ({ r.1 with fs := remove_pidfile r.1.fs key }, r.2.1, true)
      else (r.1, r.2.1, false)

/-- Loop body of `pidguard.kill_all` over the `os.listdir` snapshot: for
each pidfile name, recover the key (`name[len("hlmaker-"):-4]`), read its
pid, and if the pid is truthy and `_kill_pid` succeeds, remove the record
and append the pid to the returned list. -/
def kill_all_go (late : Nat → LiveKill) :
    List FSName → World → World × List Nat
  | [], w => (w, [])
  | name :: rest, w =>
    if isPidfileName name then
      match read_pid w.fs (stripName name) with
      | some pid =>
        if pid ≠ 0 then
          let k := _kill_pid w (late pid) pid
          if k.2.2 then
            let w2 := { k.1 with
              fs := remove_pidfile k.1.fs (stripName name) }
            let r := kill_all_go late rest w2
            (r.1, pid :: r.2)
          else kill_all_go late rest k.1
        else kill_all_go late rest w
      | none => kill_all_go late rest w
    else kill_all_go late rest w

/-- `pidguard.kill_all()`: sweep every pidfile in the temp directory. -/
def kill_all (late : Nat → LiveKill) (w : World) : World × List Nat :=
  kill_all_go late (w.fs.map Prod.fst) w

/-! ### BotRunner (bot_manager.py) -/

/-- When during the escalating stop sequence the worker process actually
exits, as observed by the successive `join`s: already dead or exiting
during the first (cooperative) join; during the wait after SIGTERM;
during the wait after SIGKILL; or still alive after the whole ladder. -/
inductive ExitStep
  | soft
  | term
  | kill
  | never
deriving DecidableEq

/-- Liveness observed after `p.join(timeout)` (the cooperative wait). -/
def aliveAfterSoftWait : ExitStep → Bool
  | .soft => false
  | _ => true

/-- Liveness observed after the `p.join(1.5)` following SIGTERM. -/
def aliveAfterTermWait : ExitStep → Bool
  | .soft | .term => false
  | _ => true

/-- Liveness observed after the `p.join(0.5)` following SIGKILL. -/
def aliveAfterKillWait : ExitStep → Bool
  | .never => true
  | _ => false

/-- Per-key mutable state of a `BotRunner`.  The two `threading`/`mp`
events are modelled by whether they are set; the spawned process by its
pid (`none` when Idle); timestamps by rationals. -/
structure BotRunner where
  key : List Char
  proc : Option Nat
  stop_evt : Bool
  log_thread_stop : Bool
  log_buf : List String
  started_at : Option ℚ
  last_beat : ℚ
deriving DecidableEq

/-- `BotRunner.__init__(key)`: no process, fresh (unset) events, empty
buffer, `last_beat = time.time()`. -/
def BotRunner.init (key : List Char) (now : ℚ) : BotRunner :=
  { key := key, proc := none, stop_evt := false, log_thread_stop := false,
    log_buf := [], started_at := none, last_beat := now }

/-- `BotRunner.is_alive()`: a process handle exists and the OS reports the
process live. -/
def BotRunner.is_alive (r : BotRunner) (w : World) : Bool :=
  match r.proc with
  | some pid => decide (pid ∈ w.alive)
  | none => false

/-- `BotRunner.touch()`: refresh the heartbeat. -/
def BotRunner.touch (r : BotRunner) (now : ℚ) : BotRunner :=
  { r with last_beat := now }

/-- `BotRunner.stop(timeout)`: `if not p: return` on an Idle runner;
otherwise set the cooperative stop event, join, SIGTERM + join if still
alive, SIGKILL + join if still alive; and in the `finally` block stop the
log-drain thread, call `pidguard.kill_key(key)` (errors swallowed), and
clear the process handle. -/
def BotRunner.stop (r : BotRunner) (w : World) (step : ExitStep)
    (late : LiveKill) : BotRunner × World × List SigCall :=
  match r.proc with
  | none => (r, w, [])
  | some pid =>
    let sigsT : List SigCall :=
      if aliveAfterSoftWait step then [.sigterm pid] else []
    let sigsK : List SigCall :=
      if aliveAfterTermWait step then [.sigkill pid] else []
    let w1 : World :=
      if aliveAfterKillWait step then w
      else { w with alive := w.alive.erase pid }
    let g := kill_key w1 late r.key
    ({ r with stop_evt := true, log_thread_stop := true, proc := none },
     g.1, sigsT ++ sigsK ++ g.2.1)

/-- `BotRunner.start(cfg, args)`: a live runner is fully stopped first;
then a fresh stop event is created, a new process is spawned (its pid
supplied by the OS as `newPid`), `started_at`/`last_beat` are set to now,
the log listener is (re)started with its stop event cleared, and the
pidfile is written with the new pid.  The log buffer itself is the same
deque as before — `start` does not clear it. -/
def BotRunner.start (r : BotRunner) (w : World) (newPid : Nat) (now : ℚ)
    (step : ExitStep) (late : LiveKill) : BotRunner × World × List SigCall :=
  let s := if r.is_alive w then BotRunner.stop r w step late else (r, w, [])
  let r2 := { s.1 with
    stop_evt := false, proc := some newPid,
    started_at := some now, last_beat := now,
    log_thread_stop := false }
  let w2 := { s.2.1 with
    alive := insert newPid s.2.1.alive,
    fs := write_pidfile s.2.1.fs r.key newPid }
  (r2, w2, s.2.2)

/-! ### Registry (bot_manager.py) -/

/-- The Registry's key-to-runner dictionary. -/
structure Registry where
  runners : List (List Char × BotRunner)
deriving DecidableEq

/-- Dictionary lookup `self._runners.get(key)`. -/
def lookupRunner : List (List Char × BotRunner) → List Char → Option BotRunner
  | [], _ => none
  | e :: rest, k => if e.1 = k then some e.2 else lookupRunner rest k

/-- Dictionary update `self._runners[key] = r` (Python objects mutate in
place; the map entry for the key is replaced). -/
def updateRunner : List (List Char × BotRunner) → List Char → BotRunner →
    List (List Char × BotRunner)
  | [], k, r => [(k, r)]
  | e :: rest, k, r =>
    if e.1 = k then (k, r) :: rest else e :: updateRunner rest k r

/-- `Registry.start(key, cfg, args)`: look up or lazily create the runner
for the key, then delegate to `BotRunner.start`. -/
def Registry.start (reg : Registry) (w : World) (key : List Char)
    (newPid : Nat) (now : ℚ) (step : ExitStep) (late : LiveKill) :
    Registry × World × List SigCall :=
  let r := match lookupRunner reg.runners key with
    | some r => r
    | none => BotRunner.init key now
  let s := BotRunner.start r w newPid now step late
  (⟨updateRunner reg.runners key s.1⟩, s.2.1, s.2.2)

/-- `Registry.stop(key)`: delegate to the runner when one is registered,
returning `True`; return `False` when the key was never known. -/
def Registry.stop (reg : Registry) (w : World) (key : List Char)
    (step : ExitStep) (late : LiveKill) :
    Bool × Registry × World × List SigCall :=
  match lookupRunner reg.runners key with
  | none => (false, reg, w, [])
  | some r =>
    let s := BotRunner.stop r w step late
    (true, ⟨updateRunner reg.runners key s.1⟩, s.2.1, s.2.2)

/-- `Registry.touch(key)`: forward to `BotRunner.touch` when the runner
exists; a no-op otherwise. -/
def Registry.touch (reg : Registry) (key : List Char) (now : ℚ) : Registry :=
  match lookupRunner reg.runners key with
  | none => reg
  | some r => ⟨updateRunner reg.runners key (r.touch now)⟩

/-! ### Idle watchdog (Registry._watchdog, one sweep) -/

/-- The watchdog's stale test for one runner:
`r.is_alive()` and `now - r.last_beat > threshold`. -/
def staleCond (thr now : ℚ) (w : World) (r : BotRunner) : Bool :=
  r.is_alive w && decide (thr < now - r.last_beat)

/-- One pass of the watchdog over `list(self._runners.items())`: every
stale live runner is stopped (`r.stop()` followed by a second
`pidguard.kill_key(key)`); the rest are left untouched. -/
def sweep_go (thr now : ℚ) (oracle : List Char → ExitStep × LiveKill) :
    List (List Char × BotRunner) → World →
    List (List Char × BotRunner) × World
  | [], w => ([], w)
  | (k, r) :: rest, w =>
    if staleCond thr now w r then
      let s := BotRunner.stop r w (oracle k).1 (oracle k).2
      let g := kill_key s.2.1 (oracle k).2 k
      let t := sweep_go thr now oracle rest g.1
      ((k, s.1) :: t.1, t.2)
    else
      let t := sweep_go thr now oracle rest w
      ((k, r) :: t.1, t.2)

/-- One iteration of the `Registry._watchdog` loop body: nothing is done
unless the configured idle threshold is positive. -/
def Registry.sweep (reg : Registry) (w : World) (thr now : ℚ)
    (oracle : List Char → ExitStep × LiveKill) : Registry × World :=
  if 0 < thr then
    let t := sweep_go thr now oracle reg.runners w
    (⟨t.1⟩, t.2)
  else (reg, w)

/-- The runner state `BotRunner.stop` leaves behind when a process handle
was present: stop events set, drain thread told to stop, handle cleared. -/
def stoppedRunner (r : BotRunner) : BotRunner :=
  { r with stop_evt := true, log_thread_stop := true, proc := none }

/-- A well-formed pidfile as `write_pidfile` produces it: parseable, a
truthy pid, and a name of the form `hlmaker-<safe stem>.pid` so that
`kill_all`'s round-trip name → key → path lands back on the same file. -/
def canonEntry (e : FSName × Option Nat) : Bool :=
  match e.2 with
  | some pid =>
      decide (pid ≠ 0)
        && decide (sanitize (stripName e.1) = stripName e.1)
        && decide (e.1 = pidfile_name (stripName e.1))
  | none => false

/-- Whether `_kill_pid` reports success for an entry's pid: the pid is
not a live process (psutil raises `NoSuchProcess`, counted as success),
or the live process goes away under terminate/kill. -/
def killOkEntry (late : Nat → LiveKill) (aliveS : Finset Nat)
    (e : FSName × Option Nat) : Bool :=
  match e.2 with
  | some pid => decide (pid ∉ aliveS) || decide (late pid ≠ LiveKill.survives)
  | none => false

end HLMaker

namespace HLMaker

/-- C10: `BotRunner.read_logs` is total at the public interface: for every
integer `max_lines` (including zero and negative values) and every buffer
state (including empty) it returns a list of exactly
`min(max(max_lines, 0), buffer length)` lines — the oldest ones, in order —
and (being a total function of the buffer state) never fails. -/
theorem c10_read_logs_total (buf : List String) (max_lines : Int) :
    (read_logs buf max_lines).1.length
      = min (max max_lines 0).toNat buf.length ∧
    (read_logs buf max_lines).1
      = buf.take ((min max_lines (buf.length : Int)).toNat) ∧
    (read_logs buf max_lines).2
      = buf.drop ((min max_lines (buf.length : Int)).toNat) := by
  refine ⟨?_, rfl, rfl⟩
  simp only [read_logs, List.length_take]
  omega

/-- C3: the per-runner log buffer has fixed capacity 2000; appending to a
full buffer evicts exactly the oldest entry and never grows the buffer
beyond the capacity; for every non-negative `max_lines`, `read_logs`
removes and returns the `min(max_lines, length)` oldest entries in FIFO
order (prefix/suffix split of the buffer), and each call with
`1 ≤ max_lines` on a non-empty buffer strictly shrinks it, so repeated
calls drain the buffer to empty. -/
theorem c3_log_buffer_bounded_fifo (buf : List String) (line : String)
    (max_lines : Int) :
    LOG_CAP = 2000 ∧
    (buf.length = LOG_CAP →
      dequeAppend LOG_CAP buf line = buf.tail ++ [line]) ∧
    (buf.length ≤ LOG_CAP →
      (dequeAppend LOG_CAP buf line).length ≤ LOG_CAP) ∧
    (0 ≤ max_lines →
      (read_logs buf max_lines).1
          = buf.take (min max_lines.toNat buf.length) ∧
      (read_logs buf max_lines).2
          = buf.drop (min max_lines.toNat buf.length) ∧
      (read_logs buf max_lines).1 ++ (read_logs buf max_lines).2 = buf) ∧
    (1 ≤ max_lines → buf ≠ [] →
      (read_logs buf max_lines).2.length < buf.length) := by
  refine ⟨rfl, ?_, ?_, ?_, ?_⟩
  · intro hfull
    simp only [dequeAppend, List.length_append, List.length_singleton]
    rw [if_pos (by omega)]
    have hdrop : buf.length + 1 - LOG_CAP = 1 := by omega
    rw [hdrop]
    cases buf with
    | nil => simp [LOG_CAP] at hfull
    | cons a t => simp
  · intro hle
    simp only [dequeAppend, List.length_append, List.length_singleton]
    split <;> simp <;> omega
  · intro hm
    have hk : (min max_lines (buf.length : Int)).toNat
        = min max_lines.toNat buf.length := by omega
    refine ⟨by simp [read_logs, hk], by simp [read_logs, hk], ?_⟩
    simp [read_logs]
  · intro hm hne
    have hlen : 0 < buf.length := List.length_pos.mpr hne
    simp only [read_logs, List.length_drop]
    omega

/-- Witness for C3 at concrete inputs: a full buffer of 2000 copies of
`"x"` evicts its head on append, and `read_logs` on `["a", "b", "c"]`
with `max_lines = 2` returns the two oldest entries and leaves the third. -/
theorem c3_log_buffer_witness :
    dequeAppend LOG_CAP (List.replicate 2000 "x") "y"
        = (List.replicate 2000 "x").tail ++ ["y"] ∧
    (read_logs ["a", "b", "c"] 2).1
        = ["a", "b", "c"].take (min (Int.toNat 2) ["a", "b", "c"].length) ∧
    (read_logs ["a", "b", "c"] 2).2.length < ["a", "b", "c"].length := by
  refine ⟨?_, ?_, ?_⟩
  · exact (c3_log_buffer_bounded_fifo (List.replicate 2000 "x") "y" 0).2.1
      (by rw [List.length_replicate]; rfl)
  · exact ((c3_log_buffer_bounded_fifo ["a", "b", "c"] "y" 2).2.2.2.1
      (by norm_num)).1
  · exact (c3_log_buffer_bounded_fifo ["a", "b", "c"] "y" 2).2.2.2.2
      (by norm_num) (by simp)

/-- C6 counterexample: the sanitizer drops characters outside the safe
set, so two distinct logical keys can map to the same pidfile path.  Here
the keys `"user:<t>"` and `"user:t"` (the first using the spec's own
example shape `user:<token>`) collide. -/
theorem c6_pidfile_path_counterexample :
    pidfile_path (String.toList "user:<t>")
        = pidfile_path (String.toList "user:t") ∧
    String.toList "user:<t>" ≠ String.toList "user:t" := by
  constructor
  · decide
  · decide

/-- C6 amended: `pidfile_path` is deterministic (a pure function of the
key), and it is collision-free on keys drawn from the sanitizer's safe
character set (alphanumerics, `-`, `_`, `:`): distinct safe keys get
distinct paths.  Keys containing stripped characters may collide. -/
theorem c6_pidfile_path_injective_on_safe (k1 k2 : List Char)
    (h1 : ∀ c ∈ k1, isSafeChar c = true)
    (h2 : ∀ c ∈ k2, isSafeChar c = true)
    (hne : k1 ≠ k2) :
    pidfile_path k1 ≠ pidfile_path k2 := by
  have s1 : sanitize k1 = k1 := List.filter_eq_self.mpr h1
  have s2 : sanitize k2 = k2 := List.filter_eq_self.mpr h2
  intro heq
  apply hne
  simp only [pidfile_path, pidfile_name, s1, s2, List.append_assoc] at heq
  have h3 := List.append_cancel_left heq
  have h4 := List.append_cancel_left h3
  exact List.append_cancel_right h4

/-- Witness for C6 amended: the safe keys `"alice"` and `"bob"` get
distinct pidfile paths. -/
theorem c6_pidfile_path_witness :
    pidfile_path (String.toList "alice") ≠ pidfile_path (String.toList "bob") := by
  exact c6_pidfile_path_injective_on_safe (String.toList "alice")
    (String.toList "bob") (by decide) (by decide) (by decide)

/-! ### cleanup_dead (C4) -/

/-- A file whose name appears nowhere in the remaining scan list is left
untouched by the rest of the `cleanup_dead` loop. -/
theorem cleanup_go_skip (aliveS : Finset Nat) (names : List FSName)
    (e : FSName × Option Nat) (fs : FileStore) (h : e.1 ∉ names) :
    cleanup_dead_go aliveS names (e :: fs)
      = (e :: (cleanup_dead_go aliveS names fs).1,
         (cleanup_dead_go aliveS names fs).2) := by
  induction names generalizing fs with
  | nil => simp [cleanup_dead_go]
  | cons n rest ih =>
    have hne : e.1 ≠ n := fun hh => h (by simp [hh])
    have hrest : e.1 ∉ rest := fun hh => h (by simp [hh])
    simp only [cleanup_dead_go, fsLookup, fsRemove, if_neg hne]
    split
    · cases hflk : fsLookup fs n with
      | none => simp [hflk, ih _ hrest]
      | some c =>
        cases c with
        | none => simp [hflk, ih _ hrest]
        | some pid =>
          by_cases hal : pid ∈ aliveS
          · simp [hflk, hal, ih _ hrest]
          · simp [hflk, hal, ih _ hrest]
    · exact ih _ hrest

/-- Specification of the `cleanup_dead` loop on a directory with no
duplicate file names: kept files are exactly those satisfying
`keepEntry`, and the removed names are the other files' names in scan
order. -/
theorem cleanup_go_spec (aliveS : Finset Nat) (fs : FileStore)
    (h : (fs.map Prod.fst).Nodup) :
    cleanup_dead_go aliveS (fs.map Prod.fst) fs
      = (fs.filter (keepEntry aliveS),
         (fs.filter (fun e => !keepEntry aliveS e)).map Prod.fst) := by
  induction fs with
  | nil => simp [cleanup_dead_go]
  | cons e rest ih =>
    obtain ⟨nm, c⟩ := e
    rw [List.map_cons, List.nodup_cons] at h
    obtain ⟨hnotin, hnd⟩ := h
    have ihr := ih hnd
    have hlk : fsLookup ((nm, c) :: rest) nm = some c := by simp [fsLookup]
    have hrm : fsRemove ((nm, c) :: rest) nm = rest := by simp [fsRemove]
    by_cases hp : isPidfileName nm
    · cases c with
      | none =>
        simp only [List.map_cons, cleanup_dead_go, hlk, if_pos hp, hrm, ihr]
        simp [keepEntry, hp]
      | some pid =>
        by_cases hal : pid ∈ aliveS
        · simp only [List.map_cons, cleanup_dead_go, hlk, if_pos hp,
            if_pos hal]
          rw [cleanup_go_skip aliveS _ (nm, some pid) rest hnotin, ihr]
          simp [keepEntry, hp, hal]
        · simp only [List.map_cons, cleanup_dead_go, hlk, if_pos hp,
            if_neg hal, hrm, ihr]
          simp [keepEntry, hp, hal]
    · simp only [List.map_cons, cleanup_dead_go, if_neg hp]
      rw [cleanup_go_skip aliveS _ (nm, c) rest hnotin, ihr]
      simp [keepEntry, hp]

/-- C4 counterexample: `cleanup_dead` returns the removed pidfile NAMES
(`hlmaker-<key>.pid`), not the removed KEYS.  With one record for key
`"a"` whose pid 7 is dead, the returned list is `["hlmaker-a.pid"]`,
which is not the key list `["a"]`. -/
theorem c4_cleanup_dead_counterexample :
    (cleanup_dead ⟨∅, [(String.toList "hlmaker-a.pid", some 7)]⟩).2
        = [String.toList "hlmaker-a.pid"] ∧
    String.toList "hlmaker-a.pid" ≠ String.toList "a" := by
  constructor
  · decide
  · decide

/-- C4 amended: on a directory with no duplicate file names,
`cleanup_dead` removes exactly the pidfiles whose recorded pid is not a
live OS process (or which cannot be parsed), leaves records of live pids
in place, leaves non-pidfile files alone, and returns the list of removed
pidfile NAMES (of the form `hlmaker-<sanitized key>.pid`), in scan order;
in particular a record whose pid is no longer alive is removed without
error. -/
theorem c4_cleanup_dead_removes_dead (w : World)
    (h : (w.fs.map Prod.fst).Nodup) :
    (cleanup_dead w).1.fs = w.fs.filter (keepEntry w.alive) ∧
    (cleanup_dead w).1.alive = w.alive ∧
    (cleanup_dead w).2
        = (w.fs.filter (fun e => !keepEntry w.alive e)).map Prod.fst := by
  have hs := cleanup_go_spec w.alive w.fs h
  simp [cleanup_dead, hs]

/-- Witness for C4 amended at a concrete directory: key `"a"` has a live
pid 3 and is kept, key `"b"` has a dead pid 7 and is removed, and a
non-pidfile temp file is left alone. -/
theorem c4_cleanup_dead_witness :
    (cleanup_dead ⟨{3}, [(String.toList "hlmaker-a.pid", some 3),
                         (String.toList "hlmaker-b.pid", some 7),
                         (String.toList "notes.txt", none)]⟩).1.fs
        = [(String.toList "hlmaker-a.pid", some 3),
           (String.toList "notes.txt", none)] ∧
    (cleanup_dead ⟨{3}, [(String.toList "hlmaker-a.pid", some 3),
                         (String.toList "hlmaker-b.pid", some 7),
                         (String.toList "notes.txt", none)]⟩).2
        = [String.toList "hlmaker-b.pid"] := by
  have h := c4_cleanup_dead_removes_dead
    ⟨{3}, [(String.toList "hlmaker-a.pid", some 3),
           (String.toList "hlmaker-b.pid", some 7),
           (String.toList "notes.txt", none)]⟩ (by decide)
  refine ⟨h.1.trans (by decide), h.2.2.trans (by decide)⟩

/-! ### kill_all (C5) -/

/-- Recovering the key from a canonical pidfile name is the inverse of
building the name from a safe key. -/
theorem stripName_pidfile_name (k : List Char) (h : sanitize k = k) :
    stripName (pidfile_name k) = k := by
  simp only [stripName, pidfile_name, h, List.append_assoc]
  have h8 : (String.toList "hlmaker-").length = 8 := rfl
  have h4 : (String.toList ".pid").length = 4 := rfl
  rw [← h8, List.drop_left]
  have hlen : (String.toList "hlmaker-"
      ++ (k ++ String.toList ".pid")).length - 12 = k.length := by
    simp only [List.length_append, h8, h4]
    omega
  rw [hlen, List.take_left]

/-- Canonical pidfile names pass the scan filter of `cleanup_dead` and
`kill_all`. -/
theorem isPidfileName_pidfile_name (k : List Char) :
    isPidfileName (pidfile_name k) = true := by
  simp only [isPidfileName, pidfile_name, Bool.and_eq_true]
  constructor
  · rw [List.isPrefixOf_iff_prefix]
    exact ⟨sanitize k ++ String.toList ".pid", by simp⟩
  · rw [List.isSuffixOf_iff_suffix]
    exact ⟨String.toList "hlmaker-" ++ sanitize k, by simp⟩

/-- Building a pidfile name is injective on safe keys. -/
theorem pidfile_name_inj {k1 k2 : List Char} (h1 : sanitize k1 = k1)
    (h2 : sanitize k2 = k2) (h : pidfile_name k1 = pidfile_name k2) :
    k1 = k2 := by
  have hh := congrArg stripName h
  rwa [stripName_pidfile_name k1 h1, stripName_pidfile_name k2 h2] at hh

/-- A file whose canonical path is referenced by none of the remaining
scan names is carried through the rest of the `kill_all` loop untouched,
and contributes nothing to the returned pid list. -/
theorem kill_go_skip (late : Nat → LiveKill) (names : List FSName)
    (e : FSName × Option Nat) (fs : FileStore) (aliveS : Finset Nat)
    (h : ∀ n ∈ names, isPidfileName n = true →
      pidfile_name (stripName n) ≠ e.1) :
    (kill_all_go late names ⟨aliveS, e :: fs⟩).1.alive
        = (kill_all_go late names ⟨aliveS, fs⟩).1.alive ∧
    (kill_all_go late names ⟨aliveS, e :: fs⟩).1.fs
        = e :: (kill_all_go late names ⟨aliveS, fs⟩).1.fs ∧
    (kill_all_go late names ⟨aliveS, e :: fs⟩).2
        = (kill_all_go late names ⟨aliveS, fs⟩).2 := by
  induction names generalizing fs aliveS with
  | nil => simp [kill_all_go]
  | cons n rest ih =>
    have hrest : ∀ m ∈ rest, isPidfileName m = true →
        pidfile_name (stripName m) ≠ e.1 :=
      fun m hm => h m (List.mem_cons_of_mem n hm)
    by_cases hp : isPidfileName n
    · have hne : pidfile_name (stripName n) ≠ e.1 :=
        h n (List.mem_cons_self n rest) hp
      have hrd : read_pid (e :: fs) (stripName n)
          = read_pid fs (stripName n) := by
        simp only [read_pid, fsLookup]
        rw [if_neg (fun hh => hne hh.symm)]
      cases hr : read_pid fs (stripName n) with
      | none => simp [kill_all_go, hp, hrd, hr, ih fs aliveS hrest]
      | some pid =>
        by_cases h0 : pid = 0
        · simp [kill_all_go, hp, hrd, hr, h0, ih fs aliveS hrest]
        · have hrm : fsRemove (e :: fs) (pidfile_name (stripName n))
              = e :: fsRemove fs (pidfile_name (stripName n)) := by
            simp only [fsRemove]
            rw [if_neg (fun hh => hne hh.symm)]
          by_cases hm : pid ∈ aliveS
          · cases hlate : late pid with
            | termExit =>
              simp only [kill_all_go, hp, if_pos, hrd, hr, h0, _kill_pid,
                hm, if_true, hlate, remove_pidfile, ite_not, if_false,
                reduceIte, hrm]
              have hih := ih (fsRemove fs (pidfile_name (stripName n)))
                (aliveS.erase pid) hrest
              exact ⟨hih.1, hih.2.1, by rw [hih.2.2]⟩
            | killExit =>
              simp only [kill_all_go, hp, if_pos, hrd, hr, h0, _kill_pid,
                hm, if_true, hlate, remove_pidfile, ite_not, if_false,
                reduceIte, hrm]
              have hih := ih (fsRemove fs (pidfile_name (stripName n)))
                (aliveS.erase pid) hrest
              exact ⟨hih.1, hih.2.1, by rw [hih.2.2]⟩
            | survives =>
              simp only [kill_all_go, hp, if_pos, hrd, hr, h0, _kill_pid,
                hm, if_true, hlate, ite_not, if_false, reduceIte]
              exact ih _ _ hrest
          · simp only [kill_all_go, hp, if_pos, hrd, hr, h0, _kill_pid,
              hm, if_false, remove_pidfile, ite_not, reduceIte, hrm]
            have hih := ih (fsRemove fs (pidfile_name (stripName n)))
              aliveS hrest
            exact ⟨hih.1, hih.2.1, by rw [hih.2.2]⟩
    · simp [kill_all_go, hp, ih fs aliveS hrest]

/-- Specification of the `kill_all` loop on a canonical directory (every
record well-formed, no duplicate names, no duplicate pids): a record is
removed exactly when `_kill_pid` reports success for its pid, and the
returned list is the pids of the removed records in scan order.  The
spec-side predicate `killOkEntry` is evaluated against the liveness set
`aliveS0` at entry; `hstable` lets the loop run against the evolving set
`aliveS`. -/
theorem kill_go_spec (late : Nat → LiveKill) (fs : FileStore)
    (aliveS aliveS0 : Finset Nat)
    (hcanon : ∀ e ∈ fs, canonEntry e = true)
    (hnd : (fs.map Prod.fst).Nodup)
    (hpd : (fs.filterMap Prod.snd).Nodup)
    (hstable : ∀ e ∈ fs, ∀ p, e.2 = some p → (p ∈ aliveS ↔ p ∈ aliveS0)) :
    (kill_all_go late (fs.map Prod.fst) ⟨aliveS, fs⟩).1.fs
        = fs.filter (fun e => !killOkEntry late aliveS0 e) ∧
    (kill_all_go late (fs.map Prod.fst) ⟨aliveS, fs⟩).2
        = (fs.filter (killOkEntry late aliveS0)).map (fun e => e.2.getD 0) := by
  induction fs generalizing aliveS with
  | nil => simp [kill_all_go]
  | cons e rest ih =>
    obtain ⟨nm, c⟩ := e
    cases c with
    | none =>
      have := hcanon (nm, none) (List.mem_cons_self _ _)
      simp [canonEntry] at this
    | some pid =>
      have hcan := hcanon (nm, some pid) (List.mem_cons_self _ _)
      simp only [canonEntry, Bool.and_eq_true, decide_eq_true_eq] at hcan
      obtain ⟨⟨hpid0, hsafe⟩, hnm⟩ := hcan
      rw [List.map_cons, List.nodup_cons] at hnd
      obtain ⟨hnmni, hndr⟩ := hnd
      have hpdr : ((rest.filterMap Prod.snd).Nodup) ∧
          pid ∉ rest.filterMap Prod.snd := by
        rw [show ((nm, some pid) :: rest).filterMap Prod.snd
            = pid :: rest.filterMap Prod.snd by simp [List.filterMap_cons],
          List.nodup_cons] at hpd
        exact ⟨hpd.2, hpd.1⟩
      have hcanr : ∀ e ∈ rest, canonEntry e = true :=
        fun e he => hcanon e (List.mem_cons_of_mem _ he)
      have hplk : isPidfileName nm = true := by
        rw [hnm]; exact isPidfileName_pidfile_name _
      have hrd : read_pid ((nm, some pid) :: rest) (stripName nm)
          = some pid := by
        simp only [read_pid, ← hnm]
        simp [fsLookup]
      have hrm : fsRemove ((nm, some pid) :: rest)
          (pidfile_name (stripName nm)) = rest := by
        simp only [← hnm]
        simp [fsRemove]
      have hstr : ∀ p, p ∈ rest.filterMap Prod.snd →
          ∀ s : Finset Nat, (p ∈ aliveS.erase pid ↔ p ∈ aliveS) := by
        intro p hp s
        have : p ≠ pid := fun hh => hpdr.2 (hh ▸ hp)
        simp [Finset.mem_erase, this]
      have hstable_head := hstable (nm, some pid)
        (List.mem_cons_self _ _) pid rfl
      have hstabr : ∀ s' : Finset Nat,
          (∀ p ∈ rest.filterMap Prod.snd, (p ∈ s' ↔ p ∈ aliveS)) →
          ∀ e ∈ rest, ∀ p, e.2 = some p → (p ∈ s' ↔ p ∈ aliveS0) := by
        intro s' hs e he p hp
        have hmem : p ∈ rest.filterMap Prod.snd :=
          List.mem_filterMap.mpr ⟨e, he, hp⟩
        exact (hs p hmem).trans
          (hstable e (List.mem_cons_of_mem _ he) p hp)
      by_cases hm : pid ∈ aliveS
      · cases hlate : late pid with
        | termExit =>
          have hko : killOkEntry late aliveS0 (nm, some pid) = true := by
            simp [killOkEntry, hlate]
          have hr := ih (aliveS.erase pid) hcanr hndr hpdr.1
            (hstabr _ (fun p hp => hstr p hp aliveS))
          simp [List.map_cons, kill_all_go, hplk, hrd, hpid0, _kill_pid,
            hm, hlate, remove_pidfile, hrm, hr.1, hr.2, List.filter_cons,
            hko]
        | killExit =>
          have hko : killOkEntry late aliveS0 (nm, some pid) = true := by
            simp [killOkEntry, hlate]
          have hr := ih (aliveS.erase pid) hcanr hndr hpdr.1
            (hstabr _ (fun p hp => hstr p hp aliveS))
          simp [List.map_cons, kill_all_go, hplk, hrd, hpid0, _kill_pid,
            hm, hlate, remove_pidfile, hrm, hr.1, hr.2, List.filter_cons,
            hko]
        | survives =>
          have hko : killOkEntry late aliveS0 (nm, some pid) = false := by
            simp [killOkEntry, hlate, hstable_head.mp hm]
          have hskip := kill_go_skip late (rest.map Prod.fst)
            (nm, some pid) rest aliveS (by
              intro n hn hpn hpe
              obtain ⟨e', he', rfl⟩ := List.mem_map.mp hn
              have hce := hcanr e' he'
              cases hc' : e'.2 with
              | none => simp [canonEntry, hc'] at hce
              | some q =>
                simp only [canonEntry, hc', Bool.and_eq_true,
                  decide_eq_true_eq] at hce
                exact hnmni (by
                  rw [← hpe, ← hce.2]
                  exact List.mem_map.mpr ⟨e', he', rfl⟩))
          have hr := ih aliveS hcanr hndr hpdr.1
            (hstabr _ (fun p hp => Iff.rfl))
          simp [List.map_cons, kill_all_go, hplk, hrd, hpid0, _kill_pid,
            hm, hlate, hskip.2.1, hskip.2.2, hr.1, hr.2, List.filter_cons,
            hko]
      · have hko : killOkEntry late aliveS0 (nm, some pid) = true := by
          simp only [killOkEntry, Bool.or_eq_true, decide_eq_true_eq]
          exact Or.inl (fun hh => hm (hstable_head.mpr hh))
        have hr := ih aliveS hcanr hndr hpdr.1
          (hstabr _ (fun p hp => Iff.rfl))
        simp [List.map_cons, kill_all_go, hplk, hrd, hpid0, _kill_pid,
          hm, remove_pidfile, hrm, hr.1, hr.2, List.filter_cons, hko]

/-- C5 counterexample: a pid appears in the list returned by `kill_all`
even when NO live process was terminated.  Here the only record's pid 7
is dead (the live set is empty), `_kill_pid` hits `NoSuchProcess` and
reports success, and `kill_all` returns `[7]`. -/
theorem c5_kill_all_counterexample :
    (kill_all (fun _ => LiveKill.survives)
        ⟨∅, [(String.toList "hlmaker-a.pid", some 7)]⟩).2 = [7] ∧
    7 ∉ (∅ : Finset Nat) := by
  constructor
  · decide
  · decide

/-- C5 amended: on a canonical directory (well-formed records, no
duplicate names or pids), `kill_all` scans all records, attempts to
terminate each record's process (escalating terminate-then-kill on a
live pid), removes a record exactly when the termination attempt
reported success — which includes the case of a pid that is already
dead — and returns the pids of exactly the removed records, in scan
order. -/
theorem c5_kill_all_spec (late : Nat → LiveKill) (w : World)
    (hcanon : ∀ e ∈ w.fs, canonEntry e = true)
    (hnd : (w.fs.map Prod.fst).Nodup)
    (hpd : (w.fs.filterMap Prod.snd).Nodup) :
    (kill_all late w).1.fs
        = w.fs.filter (fun e => !killOkEntry late w.alive e) ∧
    (kill_all late w).2
        = (w.fs.filter (killOkEntry late w.alive)).map
            (fun e => e.2.getD 0) := by
  have h := kill_go_spec late w.fs w.alive w.alive hcanon hnd hpd
    (fun _ _ _ _ => Iff.rfl)
  simpa [kill_all] using h

/-! ### Lemmas about the pidfile directory -/

/-- Looking up a name that no file has yields nothing. -/
theorem fsLookup_eq_none (fs : FileStore) (n : FSName)
    (h : n ∉ fs.map Prod.fst) : fsLookup fs n = none := by
  induction fs with
  | nil => rfl
  | cons e rest ih =>
    rw [List.map_cons, List.mem_cons] at h
    push_neg at h
    simp only [fsLookup]
    rw [if_neg (fun hh => h.1 hh.symm)]
    exact ih h.2

/-- Removing a file keeps a sublist of the directory. -/
theorem fsRemove_sublist (fs : FileStore) (n : FSName) :
    List.Sublist (fsRemove fs n) fs := by
  induction fs with
  | nil => simp [fsRemove]
  | cons e rest ih =>
    simp only [fsRemove]
    split
    · exact List.sublist_cons_self e rest
    · exact ih.cons₂ e

/-- After removing a name from a duplicate-free directory, looking that
name up yields nothing. -/
theorem fsRemove_self_lookup (fs : FileStore) (n : FSName)
    (hnd : (fs.map Prod.fst).Nodup) :
    fsLookup (fsRemove fs n) n = none := by
  induction fs with
  | nil => rfl
  | cons e rest ih =>
    rw [List.map_cons, List.nodup_cons] at hnd
    simp only [fsRemove]
    by_cases he : e.1 = n
    · rw [if_pos he]
      exact fsLookup_eq_none rest n (he ▸ hnd.1)
    · rw [if_neg he]
      simp only [fsLookup]
      rw [if_neg he]
      exact ih hnd.2

/-- Removing one name leaves lookups of any other name unchanged. -/
theorem fsRemove_other_lookup (fs : FileStore) (n m : FSName)
    (hne : m ≠ n) : fsLookup (fsRemove fs n) m = fsLookup fs m := by
  induction fs with
  | nil => rfl
  | cons e rest ih =>
    simp only [fsRemove, fsLookup]
    by_cases he : e.1 = n
    · rw [if_pos he, if_neg (fun hh : e.1 = m => hne (hh ▸ he))]
    · rw [if_neg he]
      simp only [fsLookup]
      by_cases hm : e.1 = m
      · rw [if_pos hm, if_pos hm]
      · rw [if_neg hm, if_neg hm]
        exact ih

/-- The dead end of the stop ladder: when the worker exited at one of the
three steps, it is no longer alive by the time of the final join. -/
theorem aliveAfterKillWait_false {step : ExitStep}
    (h : step ≠ ExitStep.never) : aliveAfterKillWait step = false := by
  cases step with
  | never => exact absurd rfl h
  | soft => rfl
  | term => rfl
  | kill => rfl

/-- `kill_key` never resurrects a process: the live set only shrinks. -/
theorem kill_key_alive_subset (w : World) (late : LiveKill)
    (key : List Char) : (kill_key w late key).1.alive ⊆ w.alive := by
  unfold kill_key
  cases hr : read_pid w.fs key with
  | none => simp
  | some pid =>
    by_cases h0 : pid = 0
    · simp [h0]
    · by_cases hm : pid ∈ w.alive
      · cases late <;> simp [_kill_pid, hm, h0, Finset.erase_subset]
      · simp [_kill_pid, hm, h0]

/-! ### BotRunner.stop (C2) -/

/-- C2: `BotRunner.stop` on a runner with a process handle — whichever of
the soft-signal, SIGTERM or SIGKILL steps the worker exited at — leaves
the runner exactly in the stopped state (drain thread told to stop, stop
event set, process handle cleared), makes `is_alive` false, and removes
the Identity Store record for the key; `stop` on an already-Idle runner
returns identically (same runner, same world) with no signal calls. -/
theorem c2_stop_contract (r : BotRunner) (w : World) (step : ExitStep)
    (late : LiveKill) :
    (r.proc = none → BotRunner.stop r w step late = (r, w, [])) ∧
    (∀ pid, r.proc = some pid → step ≠ ExitStep.never → pid ≠ 0 →
      (read_pid w.fs r.key = none ∨ read_pid w.fs r.key = some pid) →
      (w.fs.map Prod.fst).Nodup →
      (BotRunner.stop r w step late).1 = stoppedRunner r ∧
      BotRunner.is_alive (BotRunner.stop r w step late).1
          (BotRunner.stop r w step late).2.1 = false ∧
      read_pid (BotRunner.stop r w step late).2.1.fs r.key = none) := by
  constructor
  · intro h
    simp [BotRunner.stop, h]
  · intro pid hproc hstep hpid0 hcons hnd
    have hkw : aliveAfterKillWait step = false := aliveAfterKillWait_false hstep
    rcases hcons with hnone | hsome
    · have hkk : kill_key { w with alive := w.alive.erase pid } late r.key
          = ({ w with alive := w.alive.erase pid }, [], true) := by
        simp [kill_key, hnone]
      simp [BotRunner.stop, hproc, hkw, hkk, hnone, BotRunner.is_alive,
        stoppedRunner]
    · have hdead : pid ∉ w.alive.erase pid := Finset.not_mem_erase pid w.alive
      have hkk : kill_key { w with alive := w.alive.erase pid } late r.key
          = (⟨w.alive.erase pid, fsRemove w.fs (pidfile_name r.key)⟩,
             [], true) := by
        simp [kill_key, hsome, hpid0, _kill_pid, hdead, remove_pidfile]
      have hrd2 : read_pid (fsRemove w.fs (pidfile_name r.key)) r.key
          = none := by
        simp [read_pid, fsRemove_self_lookup _ _ hnd]
      simp [BotRunner.stop, hproc, hkw, hkk, BotRunner.is_alive,
        stoppedRunner, hrd2]

/-- Witness for C2 at concrete inputs: an Idle runner is returned
untouched with no signal calls, and a runner on live pid 5 whose record
is on file ends stopped with the record gone. -/
theorem c2_stop_contract_witness :
    BotRunner.stop ⟨String.toList "b", none, false, false, [], none, 0⟩
        ⟨{5}, [(String.toList "hlmaker-a.pid", some 5)]⟩
        ExitStep.term LiveKill.survives
      = (⟨String.toList "b", none, false, false, [], none, 0⟩,
         ⟨{5}, [(String.toList "hlmaker-a.pid", some 5)]⟩, []) ∧
    (BotRunner.stop ⟨String.toList "a", some 5, false, false, ["x"], some 1, 1⟩
        ⟨{5}, [(String.toList "hlmaker-a.pid", some 5)]⟩
        ExitStep.soft LiveKill.termExit).1
      = stoppedRunner ⟨String.toList "a", some 5, false, false, ["x"], some 1, 1⟩ ∧
    read_pid (BotRunner.stop
        ⟨String.toList "a", some 5, false, false, ["x"], some 1, 1⟩
        ⟨{5}, [(String.toList "hlmaker-a.pid", some 5)]⟩
        ExitStep.soft LiveKill.termExit).2.1.fs (String.toList "a")
      = none := by
  refine ⟨?_, ?_, ?_⟩
  · exact (c2_stop_contract
      ⟨String.toList "b", none, false, false, [], none, 0⟩
      ⟨{5}, [(String.toList "hlmaker-a.pid", some 5)]⟩
      ExitStep.term LiveKill.survives).1 rfl
  · exact ((c2_stop_contract
      ⟨String.toList "a", some 5, false, false, ["x"], some 1, 1⟩
      ⟨{5}, [(String.toList "hlmaker-a.pid", some 5)]⟩
      ExitStep.soft LiveKill.termExit).2 5 rfl (by decide) (by decide)
      (Or.inr (by decide)) (by decide)).1
  · exact ((c2_stop_contract
      ⟨String.toList "a", some 5, false, false, ["x"], some 1, 1⟩
      ⟨{5}, [(String.toList "hlmaker-a.pid", some 5)]⟩
      ExitStep.soft LiveKill.termExit).2 5 rfl (by decide) (by decide)
      (Or.inr (by decide)) (by decide)).2.2

/-! ### Per-run state across stop/start (C9) -/

/-- C9 counterexample: the log buffer DOES carry over from one run into
the next.  A runner that stopped with the line `"old"` still buffered
starts its next run with `"old"` in the buffer — `stop` and `start`
never clear the deque, and the Registry reuses the same BotRunner
object for the key. -/
theorem c9_log_buffer_carries_over :
    (BotRunner.start
        (BotRunner.stop ⟨String.toList "a", some 5, false, false, ["old"],
            some 1, 1⟩
          ⟨{5}, [(String.toList "hlmaker-a.pid", some 5)]⟩
          ExitStep.soft LiveKill.termExit).1
        (BotRunner.stop ⟨String.toList "a", some 5, false, false, ["old"],
            some 1, 1⟩
          ⟨{5}, [(String.toList "hlmaker-a.pid", some 5)]⟩
          ExitStep.soft LiveKill.termExit).2.1
        6 2 ExitStep.soft LiveKill.termExit).1.log_buf = ["old"] ∧
    (["old"] : List String) ≠ [] := by
  constructor
  · decide
  · decide

/-- C9 amended: after `stop` followed by `start` for the same key, the
process handle, stop signal, start timestamp, heartbeat and drain-thread
flag are all fresh (new pid, events cleared, timestamps set to the new
start), but the bounded log buffer's contents are NOT reset: the new
record still holds the previous run's buffered lines. -/
theorem c9_stop_start_state (r : BotRunner) (w : World)
    (step step2 : ExitStep) (late late2 : LiveKill) (newPid : Nat)
    (now : ℚ) :
    (BotRunner.start (BotRunner.stop r w step late).1
        (BotRunner.stop r w step late).2.1 newPid now step2 late2).1.proc
        = some newPid ∧
    (BotRunner.start (BotRunner.stop r w step late).1
        (BotRunner.stop r w step late).2.1 newPid now step2 late2).1.stop_evt
        = false ∧
    (BotRunner.start (BotRunner.stop r w step late).1
        (BotRunner.stop r w step late).2.1 newPid now step2
        late2).1.log_thread_stop = false ∧
    (BotRunner.start (BotRunner.stop r w step late).1
        (BotRunner.stop r w step late).2.1 newPid now step2
        late2).1.started_at = some now ∧
    (BotRunner.start (BotRunner.stop r w step late).1
        (BotRunner.stop r w step late).2.1 newPid now step2
        late2).1.last_beat = now ∧
    (BotRunner.start (BotRunner.stop r w step late).1
        (BotRunner.stop r w step late).2.1 newPid now step2
        late2).1.log_buf = r.log_buf := by
  cases hp : r.proc with
  | none => simp [BotRunner.stop, BotRunner.start, BotRunner.is_alive, hp]
  | some pid => simp [BotRunner.stop, BotRunner.start, BotRunner.is_alive, hp]

/-! ### Registry on unknown keys (C8) -/

/-- C8: `Registry.stop` on a key that was never registered returns
`False` with the registry, world (so no OS signal calls, no pidfile or
liveness changes) and signal trace all untouched, and `Registry.touch`
on such a key is a no-op. -/
theorem c8_unknown_key (reg : Registry) (w : World) (key : List Char)
    (now : ℚ) (step : ExitStep) (late : LiveKill)
    (h : lookupRunner reg.runners key = none) :
    Registry.stop reg w key step late = (false, reg, w, []) ∧
    Registry.touch reg key now = reg := by
  constructor
  · simp [Registry.stop, h]
  · simp [Registry.touch, h]

/-- Witness for C8: stopping and touching the key `"ghost"` on an empty
registry. -/
theorem c8_unknown_key_witness :
    Registry.stop ⟨[]⟩ ⟨{9}, []⟩ (String.toList "ghost")
        ExitStep.soft LiveKill.termExit
      = (false, ⟨[]⟩, ⟨{9}, []⟩, []) ∧
    Registry.touch ⟨[]⟩ (String.toList "ghost") 7 = ⟨[]⟩ := by
  exact c8_unknown_key ⟨[]⟩ ⟨{9}, []⟩ (String.toList "ghost") 7
    ExitStep.soft LiveKill.termExit rfl

/-! ### One live worker per key (C1) -/

/-- Looking a key up right after updating it yields the stored runner. -/
theorem lookupRunner_updateRunner_self
    (m : List (List Char × BotRunner)) (k : List Char) (r : BotRunner) :
    lookupRunner (updateRunner m k r) k = some r := by
  induction m with
  | nil => simp [updateRunner, lookupRunner]
  | cons e rest ih =>
    simp only [updateRunner]
    by_cases he : e.1 = k
    · rw [if_pos he]
      simp [lookupRunner]
    · rw [if_neg he]
      simp only [lookupRunner]
      rw [if_neg he]
      exact ih

/-- Starting a runner that is not alive spawns directly (no stop). -/
theorem start_not_alive (r : BotRunner) (w : World) (newPid : Nat)
    (now : ℚ) (step : ExitStep) (late : LiveKill)
    (h : r.is_alive w = false) :
    BotRunner.start r w newPid now step late
      = ({ r with
            stop_evt := false, proc := some newPid,
            started_at := some now, last_beat := now,
            log_thread_stop := false },
         ⟨insert newPid w.alive, write_pidfile w.fs r.key newPid⟩, []) := by
  simp [BotRunner.start, h]

/-- Starting a live runner first runs the full stop (whose escalation,
with the worker exiting at one of the ladder's steps, removes the old
pid from the live set), then spawns the new process. -/
theorem start_alive_components (r : BotRunner) (w : World) (newPid : Nat)
    (now : ℚ) (step : ExitStep) (late : LiveKill) (p : Nat)
    (hp : r.proc = some p) (hal : p ∈ w.alive) (hstep : step ≠ ExitStep.never) :
    (BotRunner.start r w newPid now step late).1
        = { r with
            stop_evt := false, proc := some newPid,
            started_at := some now, last_beat := now,
            log_thread_stop := false } ∧
    (BotRunner.start r w newPid now step late).2.1.alive
        = insert newPid
            (kill_key ⟨w.alive.erase p, w.fs⟩ late r.key).1.alive := by
  have halive : r.is_alive w = true := by
    simp [BotRunner.is_alive, hp, hal]
  have hkw : aliveAfterKillWait step = false := aliveAfterKillWait_false hstep
  constructor
  · simp [BotRunner.start, halive, BotRunner.stop, hp, hkw, stoppedRunner]
  · simp [BotRunner.start, halive, BotRunner.stop, hp, hkw]

/-- C1: at most one live worker process per key.  First, runner-level:
`start` on a runner whose process `p` is alive (with the old worker
exiting at some step of the stop ladder) ends with the runner holding the
fresh pid, the fresh pid live, and `p` no longer live.  Second,
registry-level: two successive `Registry.start` calls for the same
(previously unknown) key leave the registry's runner on the second pid,
the second pid live, and the first pid dead. -/
theorem c1_one_live_worker_per_key :
    (∀ (r : BotRunner) (w : World) (p newPid : Nat) (now : ℚ)
        (step : ExitStep) (late : LiveKill),
      r.proc = some p → p ∈ w.alive → newPid ∉ w.alive →
      step ≠ ExitStep.never →
      (BotRunner.start r w newPid now step late).1.proc = some newPid ∧
      newPid ∈ (BotRunner.start r w newPid now step late).2.1.alive ∧
      p ∉ (BotRunner.start r w newPid now step late).2.1.alive) ∧
    (∀ (reg : Registry) (w : World) (key : List Char) (pid1 pid2 : Nat)
        (now1 now2 : ℚ) (step1 step2 : ExitStep) (late1 late2 : LiveKill),
      lookupRunner reg.runners key = none → pid1 ≠ pid2 →
      step2 ≠ ExitStep.never →
      ∃ r2, lookupRunner
          (Registry.start
            (Registry.start reg w key pid1 now1 step1 late1).1
            (Registry.start reg w key pid1 now1 step1 late1).2.1
            key pid2 now2 step2 late2).1.runners key = some r2 ∧
        r2.proc = some pid2 ∧
        pid2 ∈ (Registry.start
            (Registry.start reg w key pid1 now1 step1 late1).1
            (Registry.start reg w key pid1 now1 step1 late1).2.1
            key pid2 now2 step2 late2).2.1.alive ∧
        pid1 ∉ (Registry.start
            (Registry.start reg w key pid1 now1 step1 late1).1
            (Registry.start reg w key pid1 now1 step1 late1).2.1
            key pid2 now2 step2 late2).2.1.alive) := by
  constructor
  · intro r w p newPid now step late hp hal hnew hstep
    have hc := start_alive_components r w newPid now step late p hp hal hstep
    have hpne : p ≠ newPid := fun hh => hnew (hh ▸ hal)
    refine ⟨by rw [hc.1], ?_, ?_⟩
    · rw [hc.2]
      exact Finset.mem_insert_self _ _
    · rw [hc.2]
      intro hmem
      rcases Finset.mem_insert.mp hmem with hh | hh
      · exact hpne hh
      · exact Finset.not_mem_erase p w.alive
          (kill_key_alive_subset ⟨w.alive.erase p, w.fs⟩ late r.key hh)
  · intro reg w key pid1 pid2 now1 now2 step1 step2 late1 late2
      hlk hne hstep2
    have h0 : (BotRunner.init key now1).is_alive w = false := by
      simp [BotRunner.init, BotRunner.is_alive]
    have e1 : Registry.start reg w key pid1 now1 step1 late1
        = (⟨updateRunner reg.runners key
              { BotRunner.init key now1 with
                stop_evt := false, proc := some pid1,
                started_at := some now1, last_beat := now1,
                log_thread_stop := false }⟩,
           ⟨insert pid1 w.alive,
            write_pidfile w.fs (BotRunner.init key now1).key pid1⟩, []) := by
      simp [Registry.start, hlk, start_not_alive _ _ _ _ _ _ h0]
    rw [e1]
    set r1 : BotRunner :=
      { BotRunner.init key now1 with
        stop_evt := false, proc := some pid1,
        started_at := some now1, last_beat := now1,
        log_thread_stop := false } with hr1
    have hlk1 : lookupRunner (updateRunner reg.runners key r1) key
        = some r1 := lookupRunner_updateRunner_self _ _ _
    have hmem1 : pid1 ∈ insert pid1 w.alive := Finset.mem_insert_self _ _
    have hc := start_alive_components r1
      ⟨insert pid1 w.alive,
       write_pidfile w.fs (BotRunner.init key now1).key pid1⟩
      pid2 now2 step2 late2 pid1 rfl hmem1 hstep2
    refine ⟨{ r1 with
        stop_evt := false, proc := some pid2,
        started_at := some now2, last_beat := now2,
        log_thread_stop := false }, ?_, ?_, ?_, ?_⟩
    · simp only [Registry.start, hlk1]
      rw [lookupRunner_updateRunner_self, hc.1]
    · rfl
    · simp only [Registry.start, hlk1]
      rw [hc.2]
      exact Finset.mem_insert_self _ _
    · simp only [Registry.start, hlk1]
      rw [hc.2]
      intro hmem
      rcases Finset.mem_insert.mp hmem with hh | hh
      · exact hne hh
      · exact Finset.not_mem_erase pid1 (insert pid1 w.alive)
          (kill_key_alive_subset
            ⟨(insert pid1 w.alive).erase pid1,
             write_pidfile w.fs (BotRunner.init key now1).key pid1⟩
            late2 r1.key hh)

/-- Witness for C1 at concrete inputs: runner on live pid 5 restarted
onto pid 6, and a registry double-start of key `"a"` on pids 5 then 6. -/
theorem c1_one_live_worker_witness :
    ((BotRunner.start ⟨String.toList "a", some 5, false, false, [], some 1, 1⟩
        ⟨{5}, [(String.toList "hlmaker-a.pid", some 5)]⟩
        6 2 ExitStep.soft LiveKill.termExit).1.proc = some 6 ∧
      6 ∈ (BotRunner.start ⟨String.toList "a", some 5, false, false, [],
            some 1, 1⟩
        ⟨{5}, [(String.toList "hlmaker-a.pid", some 5)]⟩
        6 2 ExitStep.soft LiveKill.termExit).2.1.alive ∧
      5 ∉ (BotRunner.start ⟨String.toList "a", some 5, false, false, [],
            some 1, 1⟩
        ⟨{5}, [(String.toList "hlmaker-a.pid", some 5)]⟩
        6 2 ExitStep.soft LiveKill.termExit).2.1.alive) ∧
    (∃ r2, lookupRunner
        (Registry.start
          (Registry.start ⟨[]⟩ ⟨∅, []⟩ (String.toList "a") 5 1
            ExitStep.soft LiveKill.termExit).1
          (Registry.start ⟨[]⟩ ⟨∅, []⟩ (String.toList "a") 5 1
            ExitStep.soft LiveKill.termExit).2.1
          (String.toList "a") 6 2 ExitStep.term LiveKill.termExit).1.runners
        (String.toList "a") = some r2 ∧
      r2.proc = some 6 ∧
      6 ∈ (Registry.start
          (Registry.start ⟨[]⟩ ⟨∅, []⟩ (String.toList "a") 5 1
            ExitStep.soft LiveKill.termExit).1
          (Registry.start ⟨[]⟩ ⟨∅, []⟩ (String.toList "a") 5 1
            ExitStep.soft LiveKill.termExit).2.1
          (String.toList "a") 6 2 ExitStep.term LiveKill.termExit).2.1.alive ∧
      5 ∉ (Registry.start
          (Registry.start ⟨[]⟩ ⟨∅, []⟩ (String.toList "a") 5 1
            ExitStep.soft LiveKill.termExit).1
          (Registry.start ⟨[]⟩ ⟨∅, []⟩ (String.toList "a") 5 1
            ExitStep.soft LiveKill.termExit).2.1
          (String.toList "a") 6 2 ExitStep.term
          LiveKill.termExit).2.1.alive) := by
  constructor
  · exact c1_one_live_worker_per_key.1
      ⟨String.toList "a", some 5, false, false, [], some 1, 1⟩
      ⟨{5}, [(String.toList "hlmaker-a.pid", some 5)]⟩
      5 6 2 ExitStep.soft LiveKill.termExit rfl (by decide) (by decide)
      (by decide)
  · exact c1_one_live_worker_per_key.2 ⟨[]⟩ ⟨∅, []⟩ (String.toList "a")
      5 6 1 2 ExitStep.soft ExitStep.term LiveKill.termExit
      LiveKill.termExit rfl (by decide) (by decide)

/-! ### The idle watchdog (C7) -/

/-- A runner is stale for the watchdog exactly when it holds a live pid
and its heartbeat is older than the threshold. -/
theorem staleCond_true_iff (thr now : ℚ) (w : World) (r : BotRunner) :
    staleCond thr now w r = true ↔
      ∃ p, r.proc = some p ∧ p ∈ w.alive ∧ thr < now - r.last_beat := by
  cases hp : r.proc with
  | none => simp [staleCond, BotRunner.is_alive, hp]
  | some p => simp [staleCond, BotRunner.is_alive, hp, and_assoc]

/-- Stopping a runner that holds a process handle always leaves exactly
the stopped runner state, whatever the world and oracles. -/
theorem stop_runner_eq (r : BotRunner) (w : World) (step : ExitStep)
    (late : LiveKill) (p : Nat) (hp : r.proc = some p) :
    (BotRunner.stop r w step late).1 = stoppedRunner r := by
  simp [BotRunner.stop, hp, stoppedRunner]

/-- Pointwise effect of `kill_key` when the record for the key (if any)
holds pid `p`: the liveness of every other pid is untouched, every file
either keeps its content or disappears, and no duplicate names appear. -/
theorem kill_key_pointwise (w : World) (late : LiveKill)
    (key : List Char) (p : Nat)
    (hcons : read_pid w.fs key = none ∨ read_pid w.fs key = some p)
    (hnd : (w.fs.map Prod.fst).Nodup) :
    (∀ q, q ≠ p → (q ∈ (kill_key w late key).1.alive ↔ q ∈ w.alive)) ∧
    (∀ m, fsLookup (kill_key w late key).1.fs m = fsLookup w.fs m ∨
      fsLookup (kill_key w late key).1.fs m = none) ∧
    ((kill_key w late key).1.fs.map Prod.fst).Nodup := by
  have hrm : ∀ m, fsLookup (fsRemove w.fs (pidfile_name key)) m
      = fsLookup w.fs m ∨
      fsLookup (fsRemove w.fs (pidfile_name key)) m = none := by
    intro m
    by_cases he : m = pidfile_name key
    · right
      rw [he]
      exact fsRemove_self_lookup w.fs _ hnd
    · left
      exact fsRemove_other_lookup w.fs _ m he
  have hrnd : ((fsRemove w.fs (pidfile_name key)).map Prod.fst).Nodup :=
    hnd.sublist ((fsRemove_sublist w.fs (pidfile_name key)).map Prod.fst)
  rcases hcons with hr | hr
  · simp [kill_key, hr, hnd]
  · by_cases h0 : p = 0
    · simp [kill_key, hr, h0, hnd]
    · by_cases hm : p ∈ w.alive
      · cases late with
        | termExit =>
          simp only [kill_key, hr, h0, _kill_pid, hm, ite_true, ite_false,
            if_neg h0, if_pos hm, remove_pidfile]
          refine ⟨fun q hq => ?_, hrm, hrnd⟩
          simp [Finset.mem_erase, hq]
        | killExit =>
          simp only [kill_key, hr, h0, _kill_pid, hm, ite_true, ite_false,
            if_neg h0, if_pos hm, remove_pidfile]
          refine ⟨fun q hq => ?_, hrm, hrnd⟩
          simp [Finset.mem_erase, hq]
        | survives =>
          simp only [kill_key, hr, h0, _kill_pid, hm, ite_true, ite_false,
            if_neg h0, if_pos hm]
          refine ⟨fun q hq => ?_, fun m => ?_, ?_⟩ <;> simp [hnd]
      · simp only [kill_key, hr, h0, _kill_pid, hm, ite_false,
          if_neg h0, if_neg hm, ite_true, remove_pidfile]
        refine ⟨fun q hq => ?_, ?_, ?_⟩
        · simp
        · exact hrm
        · exact hrnd

/-- Pointwise effect of the whole stale-runner teardown the watchdog
performs for one entry — `r.stop()` (with its internal
`kill_key(r.key)`) followed by the watchdog's own `kill_key(k)`:
liveness of pids other than the runner's is untouched, records only
persist or disappear, and the directory stays duplicate-free. -/
theorem stale_stop_world (r : BotRunner) (w : World) (step : ExitStep)
    (late late2 : LiveKill) (k : List Char) (p : Nat)
    (hkey : r.key = k) (hp : r.proc = some p)
    (hcons : read_pid w.fs k = none ∨ read_pid w.fs k = some p)
    (hnd : (w.fs.map Prod.fst).Nodup) :
    (∀ q, q ≠ p →
      (q ∈ (kill_key (BotRunner.stop r w step late).2.1 late2 k).1.alive
        ↔ q ∈ w.alive)) ∧
    (∀ m,
      fsLookup (kill_key (BotRunner.stop r w step late).2.1 late2 k).1.fs m
          = fsLookup w.fs m ∨
      fsLookup (kill_key (BotRunner.stop r w step late).2.1 late2 k).1.fs m
          = none) ∧
    ((kill_key (BotRunner.stop r w step late).2.1
        late2 k).1.fs.map Prod.fst).Nodup := by
  have hstop21 : (BotRunner.stop r w step late).2.1
      = (kill_key (if aliveAfterKillWait step then w
          else ⟨w.alive.erase p, w.fs⟩) late k).1 := by
    cases haw : aliveAfterKillWait step <;>
      simp [BotRunner.stop, hp, haw, hkey]
  set w1 : World := if aliveAfterKillWait step then w
    else ⟨w.alive.erase p, w.fs⟩ with hw1
  have hw1fs : w1.fs = w.fs := by
    rw [hw1]; cases aliveAfterKillWait step <;> simp
  have hw1alive : ∀ q, q ≠ p → (q ∈ w1.alive ↔ q ∈ w.alive) := by
    intro q hq
    rw [hw1]
    cases aliveAfterKillWait step <;> simp [Finset.mem_erase, hq]
  have hcons1 : read_pid w1.fs k = none ∨ read_pid w1.fs k = some p := by
    rw [hw1fs]; exact hcons
  have hnd1 : (w1.fs.map Prod.fst).Nodup := by rw [hw1fs]; exact hnd
  have h1 := kill_key_pointwise w1 late k p hcons1 hnd1
  have hcons2 : read_pid (kill_key w1 late k).1.fs k = none ∨
      read_pid (kill_key w1 late k).1.fs k = some p := by
    rcases h1.2.1 (pidfile_name k) with hh | hh
    · rw [read_pid, hh, ← hw1fs] at *
      exact hcons1
    · left
      rw [read_pid, hh]
      rfl
  have h2 := kill_key_pointwise (kill_key w1 late k).1 late2 k p
    hcons2 h1.2.2
  rw [hstop21]
  refine ⟨fun q hq => ?_, fun m => ?_, h2.2.2⟩
  · exact (h2.1 q hq).trans ((h1.1 q hq).trans (hw1alive q hq))
  · rcases h2.2.1 m with hh | hh
    · rcases h1.2.1 m with hh1 | hh1
      · rw [hh, hh1, hw1fs]
        exact Or.inl rfl
      · rw [hh, hh1]
        exact Or.inr rfl
    · exact Or.inr hh

/-- Specification of one watchdog pass over the runner table: exactly the
stale entries are replaced by their stopped versions, and every live pid
not belonging to a stale runner is still live afterwards.  Hypotheses:
runners are stored under their own key, the directory has no duplicate
names, each key's record (if readable) holds that runner's pid, and no
two entries share a pid. -/
theorem sweep_go_spec (thr now : ℚ)
    (oracle : List Char → ExitStep × LiveKill)
    (runners : List (List Char × BotRunner)) (w : World)
    (hkeys : ∀ e ∈ runners, e.2.key = e.1)
    (hnd : (w.fs.map Prod.fst).Nodup)
    (hcons : ∀ e ∈ runners, read_pid w.fs e.1 = none ∨
        ∃ p, e.2.proc = some p ∧ read_pid w.fs e.1 = some p)
    (hdisj : runners.Pairwise
        (fun a b => ∀ p, a.2.proc = some p → b.2.proc ≠ some p)) :
    (sweep_go thr now oracle runners w).1
        = runners.map (fun e =>
            if staleCond thr now w e.2 then (e.1, stoppedRunner e.2) else e) ∧
    (∀ q, q ∈ w.alive →
      (∀ e ∈ runners, ∀ p, e.2.proc = some p →
          staleCond thr now w e.2 = true → q ≠ p) →
      q ∈ (sweep_go thr now oracle runners w).2.alive) := by
  induction runners generalizing w with
  | nil => simp [sweep_go]
  | cons hd rest ih =>
    obtain ⟨k, r⟩ := hd
    rw [List.pairwise_cons] at hdisj
    have hkeyh : r.key = k := hkeys (k, r) (List.mem_cons_self _ _)
    have hkeyr : ∀ e ∈ rest, e.2.key = e.1 :=
      fun e he => hkeys e (List.mem_cons_of_mem _ he)
    by_cases hst : staleCond thr now w r
    · obtain ⟨p, hp, hal, hidle⟩ := (staleCond_true_iff thr now w r).mp hst
      have hconsh : read_pid w.fs k = none ∨ read_pid w.fs k = some p := by
        rcases hcons (k, r) (List.mem_cons_self _ _) with hh | ⟨p', hp', hh⟩
        · exact Or.inl hh
        · rw [hp] at hp'
          exact Or.inr (Option.some.inj hp' ▸ hh)
      have hw := stale_stop_world r w (oracle k).1 (oracle k).2
        (oracle k).2 k p hkeyh hp hconsh hnd
      have hstale_eq : ∀ e ∈ rest,
          staleCond thr now
            (kill_key (BotRunner.stop r w (oracle k).1 (oracle k).2).2.1
              (oracle k).2 k).1 e.2
            = staleCond thr now w e.2 := by
        intro e he
        cases hpe : e.2.proc with
        | none => simp [staleCond, BotRunner.is_alive, hpe]
        | some q =>
          have hqp : q ≠ p := by
            intro hh
            exact hdisj.1 e he p hp (by rw [hpe, hh])
          simp only [staleCond, BotRunner.is_alive, hpe]
          rw [show (decide (q ∈ (kill_key
              (BotRunner.stop r w (oracle k).1 (oracle k).2).2.1
              (oracle k).2 k).1.alive))
              = decide (q ∈ w.alive) from by
            simp only [decide_eq_decide]
            exact hw.1 q hqp]
      have hconsr : ∀ e ∈ rest,
          read_pid (kill_key
              (BotRunner.stop r w (oracle k).1 (oracle k).2).2.1
              (oracle k).2 k).1.fs e.1 = none ∨
          ∃ p', e.2.proc = some p' ∧
            read_pid (kill_key
              (BotRunner.stop r w (oracle k).1 (oracle k).2).2.1
              (oracle k).2 k).1.fs e.1 = some p' := by
        intro e he
        rcases hw.2.1 (pidfile_name e.1) with hh | hh
        · rcases hcons e (List.mem_cons_of_mem _ he) with hh1 | ⟨p', hp', hh1⟩
          · left
            rw [read_pid, hh]
            exact hh1
          · right
            exact ⟨p', hp', by rw [read_pid, hh]; exact hh1⟩
        · left
          rw [read_pid, hh]
          rfl
      have hihr := ih (kill_key
          (BotRunner.stop r w (oracle k).1 (oracle k).2).2.1
          (oracle k).2 k).1 hkeyr hw.2.2 hconsr hdisj.2
      constructor
      · simp only [sweep_go, hst, if_true, List.map_cons,
          stop_runner_eq r w (oracle k).1 (oracle k).2 p hp]
        rw [hihr.1]
        exact congrArg _ (List.map_congr_left
          (fun e he => by rw [hstale_eq e he]))
      · intro q hq havoid
        have hqp : q ≠ p :=
          havoid (k, r) (List.mem_cons_self _ _) p hp hst
        have hq1 : q ∈ (kill_key
            (BotRunner.stop r w (oracle k).1 (oracle k).2).2.1
            (oracle k).2 k).1.alive := (hw.1 q hqp).mpr hq
        have havoidr : ∀ e ∈ rest, ∀ p', e.2.proc = some p' →
            staleCond thr now (kill_key
              (BotRunner.stop r w (oracle k).1 (oracle k).2).2.1
              (oracle k).2 k).1 e.2 = true → q ≠ p' := by
          intro e he p' hp' hste
          exact havoid e (List.mem_cons_of_mem _ he) p' hp'
            (by rw [← hstale_eq e he]; exact hste)
        have := hihr.2 q hq1 havoidr
        simpa [sweep_go, hst] using this
    · have hihr := ih w hkeyr hnd
        (fun e he => hcons e (List.mem_cons_of_mem _ he)) hdisj.2
      constructor
      · simp only [sweep_go, hst, if_false, List.map_cons, Bool.false_eq_true]
        rw [hihr.1]
      · intro q hq havoid
        have := hihr.2 q hq (fun e he p' hp' hste =>
          havoid e (List.mem_cons_of_mem _ he) p' hp' hste)
        simpa [sweep_go, hst] using this

/-- C7: when the configured idle threshold `T` is positive, one watchdog
sweep stops exactly those registered runners that are alive and whose
`now - last_heartbeat` exceeds `T` (they end in the stopped state:
events set, handle cleared), leaves every other entry untouched, and
every live pid not owned by a stale runner — in particular that of a
runner touched within `T` — is still alive after the sweep. -/
theorem c7_idle_watchdog_sweep (reg : Registry) (w : World)
    (thr now : ℚ) (oracle : List Char → ExitStep × LiveKill)
    (hthr : 0 < thr)
    (hkeys : ∀ e ∈ reg.runners, e.2.key = e.1)
    (hnd : (w.fs.map Prod.fst).Nodup)
    (hcons : ∀ e ∈ reg.runners, read_pid w.fs e.1 = none ∨
        ∃ p, e.2.proc = some p ∧ read_pid w.fs e.1 = some p)
    (hdisj : reg.runners.Pairwise
        (fun a b => ∀ p, a.2.proc = some p → b.2.proc ≠ some p)) :
    (Registry.sweep reg w thr now oracle).1.runners
        = reg.runners.map (fun e =>
            if staleCond thr now w e.2 then (e.1, stoppedRunner e.2) else e) ∧
    (∀ q, q ∈ w.alive →
      (∀ e ∈ reg.runners, ∀ p, e.2.proc = some p →
          staleCond thr now w e.2 = true → q ≠ p) →
      q ∈ (Registry.sweep reg w thr now oracle).2.alive) := by
  have h := sweep_go_spec thr now oracle reg.runners w hkeys hnd hcons hdisj
  constructor
  · simp only [Registry.sweep, if_pos hthr]
    exact h.1
  · intro q hq havoid
    simp only [Registry.sweep, if_pos hthr]
    exact h.2 q hq havoid

/-- Witness for C7 at a concrete registry: with threshold 10 at time 100,
the runner of key `"a"` (pid 5, heartbeat 50, idle 50 > 10) is stopped
and the runner of key `"b"` (pid 6, heartbeat 95, idle 5 ≤ 10) is left
untouched with pid 6 still alive. -/
theorem c7_idle_watchdog_witness :
    (Registry.sweep
        ⟨[(String.toList "a",
           ⟨String.toList "a", some 5, false, false, [], some 1, 50⟩),
          (String.toList "b",
           ⟨String.toList "b", some 6, false, false, [], some 2, 95⟩)]⟩
        ⟨{5, 6}, [(String.toList "hlmaker-a.pid", some 5),
                  (String.toList "hlmaker-b.pid", some 6)]⟩
        10 100 (fun _ => (ExitStep.soft, LiveKill.termExit))).1.runners
      = [(String.toList "a",
          stoppedRunner ⟨String.toList "a", some 5, false, false, [],
            some 1, 50⟩),
         (String.toList "b",
          ⟨String.toList "b", some 6, false, false, [], some 2, 95⟩)] ∧
    6 ∈ (Registry.sweep
        ⟨[(String.toList "a",
           ⟨String.toList "a", some 5, false, false, [], some 1, 50⟩),
          (String.toList "b",
           ⟨String.toList "b", some 6, false, false, [], some 2, 95⟩)]⟩
        ⟨{5, 6}, [(String.toList "hlmaker-a.pid", some 5),
                  (String.toList "hlmaker-b.pid", some 6)]⟩
        10 100 (fun _ => (ExitStep.soft, LiveKill.termExit))).2.alive := by
  have h := c7_idle_watchdog_sweep
    ⟨[(String.toList "a",
       ⟨String.toList "a", some 5, false, false, [], some 1, 50⟩),
      (String.toList "b",
       ⟨String.toList "b", some 6, false, false, [], some 2, 95⟩)]⟩
    ⟨{5, 6}, [(String.toList "hlmaker-a.pid", some 5),
              (String.toList "hlmaker-b.pid", some 6)]⟩
    10 100 (fun _ => (ExitStep.soft, LiveKill.termExit))
    (by norm_num)
    (by intro e he; fin_cases he <;> rfl)
    (by decide)
    (by
      intro e he
      fin_cases he
      · exact Or.inr ⟨5, rfl, by decide⟩
      · exact Or.inr ⟨6, rfl, by decide⟩)
    (by
      constructor
      · intro b hb p hp
        fin_cases hb
        simp at hp
        rw [← hp]
        decide
      · simp)
  refine ⟨h.1.trans ?_, h.2 6 (by decide) ?_⟩
  · norm_num [staleCond, BotRunner.is_alive, stoppedRunner]
  · intro e he p hp hst
    fin_cases he
    · simp at hp
      omega
    · simp only [staleCond, BotRunner.is_alive, Bool.and_eq_true,
        decide_eq_true_eq] at hst
      norm_num at hst

/-- Witness for C5 amended at a concrete directory: pid 5 is live and
exits on terminate (removed, reported), pid 6 is live and survives even
kill (kept, not reported), pid 7 is already dead (removed, reported). -/
theorem c5_kill_all_witness :
    (kill_all (fun p => if p = 5 then LiveKill.termExit else LiveKill.survives)
        ⟨{5, 6}, [(String.toList "hlmaker-a.pid", some 5),
                  (String.toList "hlmaker-b.pid", some 6),
                  (String.toList "hlmaker-c.pid", some 7)]⟩).1.fs
        = [(String.toList "hlmaker-b.pid", some 6)] ∧
    (kill_all (fun p => if p = 5 then LiveKill.termExit else LiveKill.survives)
        ⟨{5, 6}, [(String.toList "hlmaker-a.pid", some 5),
                  (String.toList "hlmaker-b.pid", some 6),
                  (String.toList "hlmaker-c.pid", some 7)]⟩).2
        = [5, 7] := by
  have h := c5_kill_all_spec
    (fun p => if p = 5 then LiveKill.termExit else LiveKill.survives)
    ⟨{5, 6}, [(String.toList "hlmaker-a.pid", some 5),
              (String.toList "hlmaker-b.pid", some 6),
              (String.toList "hlmaker-c.pid", some 7)]⟩
    (by decide) (by decide) (by decide)
  exact ⟨h.1.trans (by decide), h.2.trans (by decide)⟩

end HLMaker
